import Mathlib

/-!
Verification of the Alph configuration-transaction engine against its
specification.  The definitions below are shallow embeddings of the
TypeScript sources:

* `renderMcpServer` and its helpers embed `src/renderers/mcp.ts`.
* `maskLast4`, `redactSensitive`, `structuredCloneSafe` and the provider
  status builder embed `src/commands/status.ts`.
* `redact`, `validateOptions` and the call into the registry embed
  `src/commands/configure.ts`.
* `redactForLogs` (string, argv and object forms) embeds
  `src/utils/proxy.ts`; the object form gets an explicit heap so that the
  in-place mutation it performs is observable.
* The transaction coordinator (backup / apply / rollback) is not part of
  the provided sources, so it is modelled from the spec (section 4.4).

Machine strings are `List Char`; JavaScript objects are association lists
that keep insertion order, matching object-spread semantics.
-/

set_option maxHeartbeats 1000000
set_option maxRecDepth 4096
set_option linter.unreachableTactic false
set_option linter.unusedTactic false
set_option linter.unnecessarySeqFocus false

/-! ## Character and string helpers -/

/-- ASCII lower-casing, mirroring how the JS regexes with the `i` flag and
`String.prototype.toLowerCase` compare characters in the sources. -/
def lcc (c : Char) : Char :=
  if 'A' ≤ c ∧ c ≤ 'Z' then Char.ofNat (c.toNat + 32) else c

/-- JS `\s` class restricted to the ASCII whitespace the sources can meet. -/
def isWsC (c : Char) : Bool :=
  c = ' ' || c = '\t' || c = '\n' || c = '\r' || c = '\x0b' || c = '\x0c'

/-- `.` in a JS regex without the `s` flag: anything but a line break. -/
def notNl (c : Char) : Bool :=
  !(c = '\n') && !(c = '\r')

/-- Lower-case ASCII letters and digits: the character class used for the
universally-quantified header values in the redaction theorems. -/
def plainChar (c : Char) : Bool :=
  ('a' ≤ c && c ≤ 'z') || ('0' ≤ c && c ≤ '9')

/-- Lower-case a whole string (JS `toLowerCase` on the sources' inputs). -/
def lccs (s : List Char) : List Char := s.map lcc

/-- Substring test used to model the `ENV_SENSITIVE` regex from
`src/commands/status.ts` (an unanchored, case-insensitive match). -/
def containsSub (pat s : List Char) : Bool :=
  match s with
  | [] => pat.isEmpty
  | _ :: rest => pat.isPrefixOf s || containsSub pat rest

/-! ## Renderer (`src/renderers/mcp.ts`) -/

/-- The `Transport` union type from `src/renderers/mcp.ts`. -/
inductive Transport
  | http
  | sse
  | stdio
deriving DecidableEq, Repr

/-- JSON-serializable values that can appear in a rendered server entry.
`undef` records a key whose value is JavaScript `undefined`, which is what
`{ command: input.command }` produces when `input.command` is absent. -/
inductive JVal
  | str (s : String)
  | arr (xs : List String)
  | obj (kvs : List (String × String))
  | num (n : Int)
  | undef
deriving DecidableEq, Repr

/-- `RenderInput` from `src/renderers/mcp.ts`.  The `agent` field is a
string so the unrecognized-agent fallback branch is reachable, as it is at
runtime in JavaScript. -/
structure RenderInput where
  agent : String
  serverId : String
  transport : Transport
  url : Option String
  headers : Option (List (String × String))
  command : Option String
  args : Option (List String)
  cwd : Option String
  env : Option (List (String × String))
  timeout : Option Int
deriving DecidableEq, Repr

/-- `...(input.x ? { k: input.x } : {})` for a string field: JS string
truthiness omits both absent and empty strings. -/
def optStrField (k : String) (v : Option String) : List (String × JVal) :=
  match v with
  | some s => if s.isEmpty then [] else [(k, JVal.str s)]
  | none => []

/-- `...(input.args ? { args: input.args } : {})`: arrays are truthy even
when empty, so presence alone decides inclusion. -/
def optArrField (k : String) (v : Option (List String)) : List (String × JVal) :=
  match v with
  | some xs => [(k, JVal.arr xs)]
  | none => []

/-- `...(input.env ? { env: input.env } : {})`: objects are truthy even
when empty (the cursor/stdio branch uses this raw presence test). -/
def optObjField (k : String) (v : Option (List (String × String))) : List (String × JVal) :=
  match v with
  | some m => [(k, JVal.obj m)]
  | none => []

/-- `nonEmpty` from `src/renderers/mcp.ts` lines 20-24. -/
def nonEmpty (v : Option (List (String × String))) : Option (List (String × String)) :=
  match v with
  | none => none
  | some m => if m.length > 0 then some m else none

/-- `...(nonEmpty(input.h) ? { k: input.h } : {})`. -/
def optObjNE (k : String) (v : Option (List (String × String))) : List (String × JVal) :=
  match nonEmpty v with
  | some m => [(k, JVal.obj m)]
  | none => []

/-- `...(typeof input.timeout === 'number' ? { timeout: input.timeout } : {})`. -/
def optNumField (k : String) (v : Option Int) : List (String × JVal) :=
  match v with
  | some n => [(k, JVal.num n)]
  | none => []

/-- `{ k: input.x }` with no guard: the key is always present and its value
is `undefined` when the input field is absent (fallback branch only). -/
def rawStrField (k : String) (v : Option String) : List (String × JVal) :=
  match v with
  | some s => [(k, JVal.str s)]
  | none => [(k, JVal.undef)]

/-- The per-agent server object built by `renderMcpServer`
(`src/renderers/mcp.ts` lines 29-102), branch by branch. -/
def renderServer (i : RenderInput) : List (String × JVal) :=
  if i.agent = "cursor" then
    match i.transport with
    | Transport.stdio =>
        optStrField "command" i.command ++ optArrField "args" i.args ++
          optObjField "env" i.env
    | Transport.sse =>
        ("type", JVal.str "sse") ::
          (optStrField "url" i.url ++ optObjNE "headers" i.headers)
    | Transport.http =>
        ("type", JVal.str "http") ::
          (optStrField "url" i.url ++ optObjNE "headers" i.headers)
  else if i.agent = "gemini" then
    match i.transport with
    | Transport.stdio =>
        ("transport", JVal.str "stdio") ::
          (optStrField "command" i.command ++ optArrField "args" i.args ++
            optStrField "cwd" i.cwd ++ optObjNE "env" i.env ++
            optNumField "timeout" i.timeout)
    | Transport.sse =>
        ("transport", JVal.str "sse") ::
          (optStrField "url" i.url ++ optObjNE "headers" i.headers ++
            optObjNE "env" i.env ++ optNumField "timeout" i.timeout)
    | Transport.http =>
        optStrField "httpUrl" i.url ++ optObjNE "headers" i.headers ++
          optObjNE "env" i.env ++ optNumField "timeout" i.timeout
  else if i.agent = "claude" then
    match i.transport with
    | Transport.stdio =>
        optStrField "command" i.command ++ optArrField "args" i.args ++
          optObjNE "env" i.env
    | Transport.sse =>
        ("type", JVal.str "sse") ::
          (optStrField "url" i.url ++ optObjNE "headers" i.headers)
    | Transport.http =>
        ("type", JVal.str "http") ::
          (optStrField "url" i.url ++ optObjNE "headers" i.headers)
  else
    match i.transport with
    | Transport.stdio =>
        rawStrField "command" i.command ++
          (optArrField "args" i.args ++ optObjNE "env" i.env)
    | _ =>
        rawStrField "url" i.url ++ optObjNE "headers" i.headers

/-- `renderMcpServer` (`src/renderers/mcp.ts` lines 26-109): the constant
`mcpServers` wrapper around a singleton server map. -/
def renderMcpServer (i : RenderInput) :
    List (String × List (String × List (String × JVal))) :=
  [("mcpServers", [(i.serverId, renderServer i)])]

/-- No entry of the object carries JavaScript `undefined`. -/
def undefFree (l : List (String × JVal)) : Bool :=
  l.all (fun kv => !(kv.2 = JVal.undef))

/-- The keys of an object, in insertion order. -/
def keysOf (l : List (String × JVal)) : List String := l.map Prod.fst

/-- The three agent names the renderer's branches recognize. -/
def recognizedAgent (a : String) : Bool :=
  a = "cursor" || a = "gemini" || a = "claude"

/-- Whether an optional mapping is present and non-empty. -/
def objNEb (v : Option (List (String × String))) : Bool :=
  match v with
  | some m => decide (0 < m.length)
  | none => false

/-- A render input with every optional field absent, for concrete tests. -/
def bareInput (agent : String) (t : Transport) : RenderInput :=
  ⟨agent, "srv", t, none, none, none, none, none, none, none⟩

/-! ## Status command (`src/commands/status.ts`) -/

/-- Four literal asterisks, the fixed part of every mask. -/
def stars4 : List Char := ['*', '*', '*', '*']

/-- The last four characters of a string, `v.slice(-4)` in JS: when the
string is shorter than 4 the whole string is returned, which is exactly
what `List.drop` with truncated subtraction gives. -/
def last4 (v : List Char) : List Char := v.drop (v.length - 4)

/-- String core of `maskLast4` (`src/commands/status.ts` lines 132-136):
empty strings are returned unchanged, anything else becomes `****` plus
its last four characters. -/
def mask4 (v : List Char) : List Char :=
  if v.length = 0 then v else stars4 ++ last4 v

/-- Values inside a parsed server config: strings, nested objects, or
non-string atoms (numbers, booleans, null), which `maskLast4` returns
unchanged. -/
inductive SVal
  | s (v : List Char)
  | o (fields : List (String × SVal))
  | other

/-- Observation used to separate unequal redaction results: the length of
the string in the first entry, if any. -/
def svalHeadStrLen (o : List (String × SVal)) : Nat :=
  match o with
  | (_, SVal.s cs) :: _ => cs.length
  | _ => 0

/-- `maskLast4` from `src/commands/status.ts`: non-strings pass through. -/
def maskLast4 : SVal → SVal
  | SVal.s v => SVal.s (mask4 v)
  | x => x

/-- The anchored case-insensitive `SENSITIVE_KEYS` regex
`^(authorization|access[-_]?key|api[-_]?key|token|secret|password|pass)$`. -/
def sensKey (k : String) : Bool :=
  let kl := lccs k.data
  kl = "authorization".data || kl = "accesskey".data || kl = "access-key".data ||
    kl = "access_key".data || kl = "apikey".data || kl = "api-key".data ||
    kl = "api_key".data || kl = "token".data || kl = "secret".data ||
    kl = "password".data || kl = "pass".data

/-- The unanchored case-insensitive `ENV_SENSITIVE` regex
`(token|secret|key|password|pass|auth)`. -/
def envSensKey (k : String) : Bool :=
  let kl := lccs k.data
  containsSub "token".data kl || containsSub "secret".data kl ||
    containsSub "key".data kl || containsSub "password".data kl ||
    containsSub "pass".data kl || containsSub "auth".data kl

/-- `structuredCloneSafe` (`src/commands/status.ts` lines 166-175) deep
copies its argument; on immutable values a deep copy is the identity. -/
def structuredCloneSafe (o : List (String × SVal)) : List (String × SVal) := o

/-- Mask the values of the entries whose key satisfies `pred`. -/
def maskEntriesIf (pred : String → Bool) (fs : List (String × SVal)) :
    List (String × SVal) :=
  fs.map (fun kv => if pred kv.1 then (kv.1, maskLast4 kv.2) else kv)

/-- The `headers` pass of `redactSensitive`: sensitive keys inside an
object-valued `headers` field are masked. -/
def redactHeadersEntry (kv : String × SVal) : String × SVal :=
  if kv.1 = "headers" then
    match kv.2 with
    | SVal.o h => (kv.1, SVal.o (maskEntriesIf sensKey h))
    | v => (kv.1, v)
  else kv

/-- The `env` pass of `redactSensitive`: the broader env pattern applies
inside an object-valued `env` field. -/
def redactEnvEntry (kv : String × SVal) : String × SVal :=
  if kv.1 = "env" then
    match kv.2 with
    | SVal.o h => (kv.1, SVal.o (maskEntriesIf envSensKey h))
    | v => (kv.1, v)
  else kv

/-- The top-level pass of `redactSensitive`. -/
def redactTopEntry (kv : String × SVal) : String × SVal :=
  if sensKey kv.1 then (kv.1, maskLast4 kv.2) else kv

/-- `redactSensitive` (`src/commands/status.ts` lines 126-164): clone,
then the headers pass, the env pass and the top-level pass in order. -/
def redactSensitive (o : List (String × SVal)) : List (String × SVal) :=
  (((structuredCloneSafe o).map redactHeadersEntry).map redactEnvEntry).map
    redactTopEntry

/-- A string value the mask does not shorten: empty or at least 4 long.
Masked values always satisfy this. -/
def stableStr (v : SVal) : Bool :=
  match v with
  | SVal.s cs => cs.isEmpty || decide (4 ≤ cs.length)
  | _ => true

/-- Per-entry hypothesis for idempotence: every value the three passes
can mask is `stableStr`. -/
def stableEntry (kv : String × SVal) : Bool :=
  (!sensKey kv.1 || stableStr kv.2) &&
    (if kv.1 = "headers" then
      match kv.2 with
      | SVal.o h => h.all (fun hv => !sensKey hv.1 || stableStr hv.2)
      | _ => true
    else true) &&
    (if kv.1 = "env" then
      match kv.2 with
      | SVal.o h => h.all (fun hv => !envSensKey hv.1 || stableStr hv.2)
      | _ => true
    else true)

/-- Every sensitive position of the object holds a `stableStr` value. -/
def stableObj (o : List (String × SVal)) : Bool := o.all stableEntry

/-- The composite per-entry action of `redactSensitive`. -/
def redactEntry (kv : String × SVal) : String × SVal :=
  redactTopEntry (redactEnvEntry (redactHeadersEntry kv))

/-! ## Configure command (`src/commands/configure.ts`) -/

/-- `ConfigureCommand.redact` (`src/commands/configure.ts` lines 527-531):
absent/empty values become the empty string, anything else is masked the
same way as `maskLast4`. -/
def redact (value : List Char) : List Char :=
  if value.isEmpty then [] else stars4 ++ last4 value

/-! ## Proxy utilities (`src/utils/proxy.ts`) -/

/-- `SENSITIVE_HEADER_KEYS` (`src/utils/proxy.ts` lines 16-22). -/
def SENSITIVE_HEADER_KEYS : List String :=
  ["authorization", "x-api-key", "x-auth-token", "x-access-token",
    "proxy-authorization"]

/-- Strip `pat` from the head of `s`, comparing case-insensitively as the
`i`-flagged regexes do; `some rest` on success. -/
def ciStrip : List Char → List Char → Option (List Char)
  | [], s => some s
  | _ :: _, [] => none
  | p :: ps, c :: cs => if lcc c = lcc p then ciStrip ps cs else none

/-- Like `ciStrip` but, when the source runs out first, reports the part
of the pattern that would have to match the following text. -/
def ciStrip2 : List Char → List Char → Option (List Char × List Char)
  | [], s => some ([], s)
  | p :: ps, [] => some (p :: ps, [])
  | p :: ps, c :: cs => if lcc c = lcc p then ciStrip2 ps cs else none

/-- Head match of the header-value regex `(key\s*:\s*)(.+?)(?=$|\r|\n)`
used by `redactForLogs`: on success returns the kept capture (matched key
text, whitespace, colon, whitespace) and the text after the value, which
runs to the end of the line and must be non-empty. -/
def tryHdrColon (key s r1 : List Char) : List Char → Option (List Char × List Char)
  | [] => none
  | c :: r3 =>
    if c = ':' then
      if ((r3.drop (r3.takeWhile isWsC).length).takeWhile notNl).isEmpty then
        none
      else
        some (s.take key.length ++ r1.takeWhile isWsC ++ c :: r3.takeWhile isWsC,
          (r3.drop (r3.takeWhile isWsC).length).drop
            ((r3.drop (r3.takeWhile isWsC).length).takeWhile notNl).length)
    else none

def tryHdrAux (key s : List Char) : Option (List Char) → Option (List Char × List Char)
  | none => none
  | some r1 => tryHdrColon key s r1 (r1.drop (r1.takeWhile isWsC).length)

def tryHdr (key s : List Char) : Option (List Char × List Char) :=
  tryHdrAux key s (ciStrip key s)

/-- One global-regex replacement sweep for a header key: scan left to
right, and at each match emit the kept capture plus the placeholder and
continue after the consumed value.  `fuel` only serves termination; each
step consumes at least one character, so `s.length` is always enough. -/
def hdrScan (key ph : List Char) : Nat → List Char → List Char
  | 0, s => s
  | _ + 1, [] => []
  | f + 1, c :: cs =>
    match tryHdr key (c :: cs) with
    | some (pfx, rest) => pfx ++ ph ++ hdrScan key ph f rest
    | none => c :: hdrScan key ph f cs

/-- A full pass of one header regex over the string. -/
def hdrPass (key ph s : List Char) : List Char := hdrScan key ph s.length s

/-- `<redacted:key>`. -/
def placeholderFor (key : String) : List Char :=
  "<redacted:".data ++ key.data ++ ">".data

/-- The character class `[^\s"']` of the bearer-token regex. -/
def bearerTok (c : Char) : Bool :=
  !isWsC c && !(c = '"') && !(c = Char.ofNat 39)

/-- Head match of `(--oauth2Bearer\s+)([^\s"']+)`: keeps the flag text
plus the whitespace, and the token is replaced. -/
def tryBearerAux (s : List Char) : Option (List Char) → Option (List Char × List Char)
  | none => none
  | some r1 =>
    if (r1.takeWhile isWsC).isEmpty then none
    else
      if ((r1.drop (r1.takeWhile isWsC).length).takeWhile bearerTok).isEmpty then
        none
      else
        some (s.take "--oauth2bearer".data.length ++ r1.takeWhile isWsC,
          (r1.drop (r1.takeWhile isWsC).length).drop
            ((r1.drop (r1.takeWhile isWsC).length).takeWhile bearerTok).length)

def tryBearer (s : List Char) : Option (List Char × List Char) :=
  tryBearerAux s (ciStrip "--oauth2bearer".data s)

/-- Replacement sweep for the bearer regex. -/
def bearerScan : Nat → List Char → List Char
  | 0, s => s
  | _ + 1, [] => []
  | f + 1, c :: cs =>
    match tryBearer (c :: cs) with
    | some (pfx, rest) => pfx ++ "<redacted:bearer>".data ++ bearerScan f rest
    | none => c :: bearerScan f cs

/-- A full pass of the bearer regex over the string. -/
def bearerPass (s : List Char) : List Char := bearerScan s.length s

/-- `redactString` from `redactForLogs` (`src/utils/proxy.ts` lines
81-93): the bearer regex, the explicit `Authorization` regex, then one
regex per sensitive header key, in array order. -/
def redactString (s : List Char) : List Char :=
  hdrPass "proxy-authorization".data (placeholderFor "proxy-authorization")
    (hdrPass "x-access-token".data (placeholderFor "x-access-token")
      (hdrPass "x-auth-token".data (placeholderFor "x-auth-token")
        (hdrPass "x-api-key".data (placeholderFor "x-api-key")
          (hdrPass "authorization".data (placeholderFor "authorization")
            (hdrPass "authorization".data (placeholderFor "authorization")
              (bearerPass s))))))

/-- Case-insensitive comparison against the literal `--oauth2bearer`
(`part.toLowerCase() === '--oauth2bearer'`). -/
def isFlag (part : List Char) : Bool := lccs part = "--oauth2bearer".data

/-- The argv branch of `redactForLogs` (`src/utils/proxy.ts` lines
98-113).  When the flag is the last element, the code pushes the flag and
then falls through and pushes `redactString` of the very same element
again — the `continue` only triggers when a following token exists. -/
def redactArgv : List (List Char) → List (List Char)
  | [] => []
  | part :: rest =>
    if isFlag part then
      match rest with
      | _ :: rest2 => part :: "<redacted:bearer>".data :: redactArgv rest2
      | [] => [part, redactString part]
    else redactString part :: redactArgv rest

/-- Hypothesis under which the argv scan behaves positionally: no flag is
last and no flag immediately follows a flag. -/
def flagsOKb : List (List Char) → Bool
  | [] => true
  | [a] => !isFlag a
  | a :: b :: rest => (!isFlag a || !isFlag b) && flagsOKb (b :: rest)

/-! ### Failure certificates for the scanners

`hdrFailsOn key C` (resp. `bearerFailsOn C`) is a decidable check on the
concrete prefix `C` guaranteeing that the regex cannot match at the start
of `C ++ v` for any `v` made of `plainChar` characters: the colon
(resp. the mandatory whitespace) can never be produced by such a tail. -/

/-- Whether a list starts with a colon. -/
def headIsColon : List Char → Bool
  | [] => false
  | c :: _ => decide (c = ':')

/-- After the key matched, the concrete remainder must fail to provide
`\s*:` before the plain tail starts. -/
def wsColonFails (rest : List Char) : Bool :=
  !headIsColon (rest.drop ((rest.takeWhile isWsC).length))

def hdrFailsOnAux : Option (List Char × List Char) → Bool
  | none => true
  | some ([], rest) => wsColonFails rest
  | some (_ :: _, _) => true

def hdrFailsOn (key C : List Char) : Bool :=
  hdrFailsOnAux (ciStrip2 key C)

/-- All positions `n < m` of `C` are guaranteed non-matches. -/
def hdrIdUpTo (key C : List Char) (m : Nat) : Bool :=
  (List.range m).all (fun n => hdrFailsOn key (C.drop n))

/-- Decidable certificate that a header pass leaves `C ++ v` unchanged. -/
def hdrIdOn (key C : List Char) : Bool := hdrIdUpTo key C (C.length + 1)

def bearerFailsOnAux : Option (List Char × List Char) → Bool
  | none => true
  | some ([], rest) => (rest.takeWhile isWsC).isEmpty
  | some (_ :: _, _) => true

def bearerFailsOn (C : List Char) : Bool :=
  bearerFailsOnAux (ciStrip2 "--oauth2bearer".data C)

def bearerIdOn (C : List Char) : Bool :=
  (List.range (C.length + 1)).all (fun n => bearerFailsOn (C.drop n))

/-! ### Heap model for the object branch of `redactForLogs`

The object branch makes a shallow copy (`{ ...x }`) and then walks it,
assigning redacted strings into the objects it reaches.  Nested objects
are reached through references shared with the caller's input, so the
walk's assignments are visible through the original object.  Objects live
in an explicit heap of numbered cells to make that sharing observable. -/

inductive HV
  | hstr (s : List Char)
  | href (a : Nat)
  | hatom

abbrev HObj := List (String × HV)

abbrev Heap := List (Nat × HObj)

def heapGet (h : Heap) (a : Nat) : HObj :=
  match h.find? (fun e => e.1 = a) with
  | some e => e.2
  | none => []

def heapSet : Heap → Nat → HObj → Heap
  | [], _, _ => []
  | e :: rest, a, o => if e.1 = a then (a, o) :: rest else e :: heapSet rest a o

def setField : HObj → String → HV → HObj
  | [], _, _ => []
  | kv :: rest, k, v => if kv.1 = k then (k, v) :: rest else kv :: setField rest k v

/-- `/^Bearer\s+\S+$/i`. -/
def bearerValRe (s : List Char) : Bool :=
  match ciStrip "bearer".data s with
  | none => false
  | some r1 =>
    let w := r1.takeWhile isWsC
    let r2 := r1.drop w.length
    !w.isEmpty && !r2.isEmpty && r2.all (fun c => !isWsC c)

def sensHdrKeyLowered (kl : List Char) : Bool :=
  kl = "authorization".data || kl = "x-api-key".data || kl = "x-auth-token".data ||
    kl = "x-access-token".data || kl = "proxy-authorization".data

/-- The per-string assignment of the walk (`src/utils/proxy.ts` lines
123-139). -/
def redactVal (k : String) (v : List Char) : List Char :=
  let kl := lccs k.data
  if kl = "authorization".data then
    if bearerValRe v then "Bearer <redacted:authorization>".data
    else "<redacted:authorization>".data
  else if sensHdrKeyLowered kl then "<redacted:".data ++ kl ++ ">".data
  else if bearerValRe v then "Bearer <redacted:authorization>".data
  else redactString v

/-- `walk` from the object branch as a depth-first worklist: each pending
item is the address whose field is being walked together with the entry
from that object's `Object.entries` snapshot.  A reference pushes the
referenced object's entries (snapshotted at visit time) in front, which is
the source's recursion order; a string entry is assigned in place.  `fuel`
only serves termination (the source would loop forever on a cyclic
object) and is chosen large enough at the call site. -/
def walkTodo : Nat → List (Nat × (String × HV)) → Heap → Heap
  | 0, _, h => h
  | _, [], h => h
  | f + 1, (a, kv) :: todo, h =>
    match kv.2 with
    | HV.href b =>
        walkTodo f ((heapGet h b).map (fun e => (b, e)) ++ todo) h
    | HV.hstr s =>
        walkTodo f todo
          (heapSet h a (setField (heapGet h a) kv.1 (HV.hstr (redactVal kv.1 s))))
    | HV.hatom => walkTodo f todo h

/-- `walk(clone)`: process the entries snapshot of the object at `a`. -/
def walkVisit (fuel a : Nat) (h : Heap) : Heap :=
  walkTodo fuel ((heapGet h a).map (fun e => (a, e))) h

/-- An upper bound on the walk's step count for an acyclic heap: every
entry of every cell, counted once per cell it could be reached from. -/
def heapFuel (h : Heap) : Nat :=
  (h.length + 1) * h.foldr (fun e acc => acc + e.2.length + 1) 1

/-- A fresh address for the shallow copy. -/
def freshAddr (h : Heap) : Nat :=
  h.foldr (fun e acc => max (e.1 + 1) acc) 0

/-- The object branch of `redactForLogs`: shallow-copy the top object
(`const clone = { ...x }` — child references are shared, not copied),
walk the copy, return its address together with the post-call heap. -/
def redactForLogsObj (a : Nat) (h : Heap) : Nat × Heap :=
  let f := freshAddr h
  let h1 := h ++ [(f, heapGet h a)]
  (f, walkVisit (heapFuel h1) f h1)

/-- The heap of the C6 failing input `{ h: { authorization: "secret" } }`:
cell 0 is the argument object, cell 1 its nested header object. -/
def c6heap : Heap :=
  [(0, [("h", HV.href 1)]),
    (1, [("authorization", HV.hstr "secret".data)])]

/-! ## Configure command validation (`src/commands/configure.ts` lines 285-320) -/

/-- The fields of `this.options` that `validateOptions` consults, plus
`command`, which the canonical spec carries for stdio transport;
`validateOptions` never reads it. -/
structure CfgOptions where
  interactive : Bool
  dryRun : Bool
  transport : Transport
  mcpServerEndpoint : Option String
  command : Option String
  configDir : Option String

/-- What `existsSync`/`statSync` report for a path. -/
inductive DirStatus
  | missing
  | notDir
  | dir
deriving DecidableEq

/-- The errors `validateOptions` can throw. -/
inductive VErr
  | endpointRequired
  | invalidUrl (u : String)
  | dirMissing (d : String)
  | notDirectory (d : String)
deriving DecidableEq

/-- JS truthiness of an optional string: present and non-empty. -/
def optTruthy (v : Option String) : Bool :=
  match v with
  | some s => !s.isEmpty
  | none => false

/-- `const requiresUrl = (t === 'http' || t === 'sse')`. -/
def requiresUrl (t : Transport) : Bool :=
  match t with
  | Transport.http => true
  | Transport.sse => true
  | Transport.stdio => false

/-- First check of `validateOptions`: in non-interactive mode the endpoint
is required for http/sse unless dry-run. -/
def checkEndpointRequired (o : CfgOptions) : Except VErr Unit :=
  if !o.interactive &&
      (requiresUrl o.transport && !optTruthy o.mcpServerEndpoint && !o.dryRun) then
    Except.error VErr.endpointRequired
  else Except.ok ()

/-- Second check: `new URL(endpoint)` is attempted only when the endpoint
is truthy and the transport expects a URL; `urlOk` stands for URL-string
validity of the runtime's `URL` constructor. -/
def checkUrl (urlOk : String → Bool) (o : CfgOptions) : Except VErr Unit :=
  match o.mcpServerEndpoint with
  | some u =>
    if !u.isEmpty && requiresUrl o.transport then
      if urlOk u then Except.ok () else Except.error (VErr.invalidUrl u)
    else Except.ok ()
  | none => Except.ok ()

/-- Third check: `configDir`, when truthy after trimming, must exist and
be a directory; `dirStat` stands for the file system's answer. -/
def checkConfigDir (dirStat : String → DirStatus) (o : CfgOptions) : Except VErr Unit :=
  match o.configDir with
  | some cd =>
    if !cd.isEmpty && !cd.trim.isEmpty then
      match dirStat cd.trim with
      | DirStatus.missing => Except.error (VErr.dirMissing cd.trim)
      | DirStatus.notDir => Except.error (VErr.notDirectory cd.trim)
      | DirStatus.dir => Except.ok ()
    else Except.ok ()
  | none => Except.ok ()

/-- `ConfigureCommand.validateOptions` (`src/commands/configure.ts` lines
285-320): the three checks in source order.  No check reads `command`. -/
def validateOptions (urlOk : String → Bool) (dirStat : String → DirStatus)
    (o : CfgOptions) : Except VErr Unit :=
  match checkEndpointRequired o with
  | Except.error e => Except.error e
  | Except.ok _ =>
    match checkUrl urlOk o with
    | Except.error e => Except.error e
    | Except.ok _ => checkConfigDir dirStat o

/-! ## Status command `buildProviderStatuses` (`src/commands/status.ts` lines 50-112) -/

/-- A provider status record as `buildProviderStatuses` builds it. -/
structure ProviderStatus where
  name : String
  detected : Bool
  configPath : Option String
  error : Option String
  servers : Option (List (String × List (String × SVal)))

/-- One provider's detection result together with the outcomes of the I/O
the status command would perform on it (`fs.readFile`, `TOML.parse`,
`FileOperations.readJsonFile` composed with `extractMCPServers`): those
outcomes are inputs to the model. -/
inductive DetInput
  | notDetected (name : String) (err : Option String)
  | noPath (name : String)
  | codex (name path : String) (raw : Except String String)
      (parse : Except String (List (String × List (String × SVal))))
  | jsonAgent (name path : String)
      (outcome : Except String (List (String × List (String × SVal))))

/-- `raw && raw.trim().length > 0`: the raw file content is truthy and
not whitespace-only (trim written out over the character list). -/
def rawNonBlank (r : String) : Bool :=
  !(((r.data.dropWhile isWsC).reverse.dropWhile isWsC).reverse.isEmpty)

/-- `Object.entries(mcp).map(([id, cfg]) => ({id, config: redactSensitive(cfg)}))`. -/
def redactServers (mcp : List (String × List (String × SVal))) :
    List (String × List (String × SVal)) :=
  mcp.map (fun e => (e.1, redactSensitive e.2))

/-- The per-provider body of `buildProviderStatuses`.  In the Codex CLI
branch a `TOML.parse` failure is swallowed by the inner empty `catch`
(the comment there says "fallthrough to generic error below", but control
resumes after the inner try), so the provider is reported with empty
`servers` and no error; a `readJsonFile` failure in the generic branch
reaches the outer catch and is attached as `error`. -/
def buildStatus : DetInput → ProviderStatus
  | DetInput.notDetected n err =>
    { name := n, detected := false, configPath := none,
      error := match err with
        | some e => if e.isEmpty then none else some e
        | none => none,
      servers := none }
  | DetInput.noPath n =>
    { name := n, detected := true, configPath := none, error := none,
      servers := none }
  | DetInput.codex n p raw parse =>
    match raw with
    | Except.error msg =>
      { name := n, detected := true, configPath := some p, error := some msg,
        servers := none }
    | Except.ok r =>
      if !rawNonBlank r then
        { name := n, detected := true, configPath := some p, error := none,
          servers := some [] }
      else
        match parse with
        | Except.error _ =>
          { name := n, detected := true, configPath := some p, error := none,
            servers := some [] }
        | Except.ok mcp =>
          { name := n, detected := true, configPath := some p, error := none,
            servers := some (redactServers mcp) }
  | DetInput.jsonAgent n p outcome =>
    match outcome with
    | Except.error msg =>
      { name := n, detected := true, configPath := some p, error := some msg,
        servers := none }
    | Except.ok mcp =>
      { name := n, detected := true, configPath := some p, error := none,
        servers := some (redactServers mcp) }

/-- `buildProviderStatuses` maps the per-provider body over the detection
results; each provider is handled independently. -/
def buildProviderStatuses (dets : List DetInput) : List ProviderStatus :=
  dets.map buildStatus

/-! ## Transaction coordinator (spec section 4.4) and its invocation -/

/-- Modelled from the spec: a configuration file's content, as opaque
bytes. -/
def FileDoc := List Char

/-- Modelled from the spec: the file system as an association list from
paths to documents; a missing path is a file that does not exist. -/
def FSState := List (String × FileDoc)

/-- Modelled from the spec: read a file, `none` when it does not exist. -/
def fsGet : FSState → String → Option FileDoc
  | [], _ => none
  | e :: rest, p => if e.1 = p then some e.2 else fsGet rest p

/-- Modelled from the spec: write a file, creating it if absent. -/
def fsSet : FSState → String → FileDoc → FSState
  | [], p, d => [(p, d)]
  | e :: rest, p, d => if e.1 = p then (p, d) :: rest else e :: fsSet rest p d

/-- Modelled from the spec: delete a file. -/
def fsDel : FSState → String → FSState
  | [], _ => []
  | e :: rest, p => if e.1 = p then rest else e :: fsDel rest p

/-- Modelled from the spec: one agent's apply step, reduced to the path it
writes and the document it would write; `none` models a failing apply step
(I/O error, serialization error, unexpected existing-document shape). -/
structure TAgent where
  path : String
  newDoc : Option FileDoc

/-- Modelled from the spec: an applied record capturing the
`previousDocument` (`none` when the file did not exist). -/
structure TRecord where
  path : String
  previousDocument : Option FileDoc

/-- Modelled from the spec: restore one record, writing back the captured
`previousDocument` or deleting the file if it did not exist before. -/
def restoreOne (r : TRecord) (fs : FSState) : FSState :=
  match r.previousDocument with
  | some d => fsSet fs r.path d
  | none => fsDel fs r.path

/-- Modelled from the spec: walk the applied records in reverse order of
application (they are accumulated most-recent-first, so list order is
already reverse application order) and restore each. -/
def rollback : List TRecord → FSState → FSState
  | [], fs => fs
  | r :: rest, fs => rollback rest (restoreOne r fs)

/-- Modelled from the spec: a transaction either commits or rolls back,
reporting the failing path and the final file system. -/
inductive TxResult
  | committed (fs : FSState)
  | rolledBack (failedPath : String) (fs : FSState)

/-- Modelled from the spec: apply the agents in order, capturing each
file's previous document before writing; on the first failing step stop
advancing and roll back the applied records. -/
def runTransaction : List TAgent → FSState → List TRecord → TxResult
  | [], fs, _ => TxResult.committed fs
  | a :: rest, fs, recs =>
    match a.newDoc with
    | some d =>
        runTransaction rest (fsSet fs a.path d)
          (⟨a.path, fsGet fs a.path⟩ :: recs)
    | none => TxResult.rolledBack a.path (rollback recs fs)

/-- Modelled from the spec: a whole transaction starts with no applied
records. -/
def runTx (agents : List TAgent) (fs : FSState) : TxResult :=
  runTransaction agents fs []

/-- The third and fourth arguments `ConfigureCommand.configureAgents`
passes to `configureAllDetectedAgents` (`src/commands/configure.ts` lines
440-445): rollback-on-failure is the literal `true`. -/
structure ConfigureAllArgs where
  rollbackOnFailure : Bool
  backup : Option Bool

/-- The call site's arguments as a function of the only varying input. -/
def configureAgentsCall (backup : Option Bool) : ConfigureAllArgs :=
  { rollbackOnFailure := true, backup := backup }

/-! ### Renderer helper lemmas -/

@[simp]
theorem undefFree_append (a b : List (String × JVal)) :
    undefFree (a ++ b) = (undefFree a && undefFree b) := by
  simp [undefFree, List.all_append]

@[simp]
theorem undefFree_optStrField (k : String) (v : Option String) :
    undefFree (optStrField k v) = true := by
  cases v with
  | none => rfl
  | some s =>
    by_cases h : s.isEmpty <;> simp [optStrField, h, undefFree]

@[simp]
theorem undefFree_optArrField (k : String) (v : Option (List String)) :
    undefFree (optArrField k v) = true := by
  cases v <;> simp [optArrField, undefFree]

@[simp]
theorem undefFree_optObjField (k : String) (v : Option (List (String × String))) :
    undefFree (optObjField k v) = true := by
  cases v <;> simp [optObjField, undefFree]

@[simp]
theorem undefFree_optObjNE (k : String) (v : Option (List (String × String))) :
    undefFree (optObjNE k v) = true := by
  cases v with
  | none => rfl
  | some m =>
    by_cases h : 0 < m.length <;> simp [optObjNE, nonEmpty, h, undefFree]

@[simp]
theorem undefFree_optNumField (k : String) (v : Option Int) :
    undefFree (optNumField k v) = true := by
  cases v <;> simp [optNumField, undefFree]

@[simp]
theorem undefFree_cons (x : String × JVal) (l : List (String × JVal)) :
    undefFree (x :: l) = (!(x.2 = JVal.undef) && undefFree l) := by
  simp [undefFree]

@[simp]
theorem keysOf_append (a b : List (String × JVal)) :
    keysOf (a ++ b) = keysOf a ++ keysOf b := by
  simp [keysOf]

@[simp]
theorem keysOf_cons (x : String × JVal) (l : List (String × JVal)) :
    keysOf (x :: l) = x.1 :: keysOf l := by
  simp [keysOf]

@[simp]
theorem mem_keysOf_optStrField (a k : String) (v : Option String) :
    a ∈ keysOf (optStrField k v) ↔ (a = k ∧ ∃ s, v = some s ∧ s.isEmpty = false) := by
  cases v with
  | none => simp [optStrField, keysOf]
  | some s =>
    by_cases h : s.isEmpty <;> simp [optStrField, h, keysOf] <;> tauto

@[simp]
theorem mem_keysOf_optArrField (a k : String) (v : Option (List String)) :
    a ∈ keysOf (optArrField k v) ↔ (a = k ∧ v.isSome = true) := by
  cases v <;> simp [optArrField, keysOf]

@[simp]
theorem mem_keysOf_optObjField (a k : String) (v : Option (List (String × String))) :
    a ∈ keysOf (optObjField k v) ↔ (a = k ∧ v.isSome = true) := by
  cases v <;> simp [optObjField, keysOf]

@[simp]
theorem mem_keysOf_optObjNE (a k : String) (v : Option (List (String × String))) :
    a ∈ keysOf (optObjNE k v) ↔ (a = k ∧ objNEb v = true) := by
  cases v with
  | none => simp [optObjNE, nonEmpty, keysOf, objNEb]
  | some m =>
    by_cases h : 0 < m.length <;> simp [optObjNE, nonEmpty, h, keysOf, objNEb]

@[simp]
theorem mem_keysOf_optNumField (a k : String) (v : Option Int) :
    a ∈ keysOf (optNumField k v) ↔ (a = k ∧ v.isSome = true) := by
  cases v <;> simp [optNumField, keysOf]

@[simp]
theorem mem_keysOf_rawStrField (a k : String) (v : Option String) :
    a ∈ keysOf (rawStrField k v) ↔ a = k := by
  cases v <;> simp [rawStrField, keysOf]

/-- **C10.** For every render input — the unrecognized-agent fallback
included — `renderMcpServer` returns exactly one top-level key, the
literal `mcpServers`, holding exactly one entry keyed by the input
`serverId`; the container key never varies per agent or transport. -/
theorem c10_container_key (i : RenderInput) :
    (renderMcpServer i).map Prod.fst = ["mcpServers"] ∧
      (renderMcpServer i).map (fun kv => kv.2.map Prod.fst) = [[i.serverId]] :=
  ⟨rfl, rfl⟩

/-- **C2, counterexample.** The claim fails on the fallback branch: an
unrecognized agent with stdio transport and no command yields a server
object whose `command` key carries JavaScript `undefined`. -/
theorem c2_counterexample :
    renderServer (bareInput "codex" Transport.stdio) = [("command", JVal.undef)] ∧
      undefFree (renderServer (bareInput "codex" Transport.stdio)) = false := by
  constructor <;> rfl

/-- **C2, amended.** For the recognized agents (cursor, gemini, claude) no
rendered key carries `undefined`; a `headers` key appears only when the
input headers mapping is present and non-empty; an `env` key appears only
when env is present and non-empty, except the cursor/stdio branch, which
includes `env` whenever it is present, even empty.  (The fallback branch
emits `command`/`url` unconditionally, possibly as `undefined`.) -/
theorem c2_amended (i : RenderInput) :
    (recognizedAgent i.agent = true → undefFree (renderServer i) = true) ∧
      ("headers" ∈ keysOf (renderServer i) → objNEb i.headers = true) ∧
      ("env" ∈ keysOf (renderServer i) →
        objNEb i.env = true ∨
          (i.env.isSome = true ∧ i.agent = "cursor" ∧ i.transport = Transport.stdio)) := by
  by_cases hc : i.agent = "cursor"
  · cases ht : i.transport <;>
      simp [renderServer, hc, ht, recognizedAgent] <;> tauto
  · by_cases hg : i.agent = "gemini"
    · cases ht : i.transport <;>
        simp [renderServer, hc, hg, ht, recognizedAgent] <;> tauto
    · by_cases hl : i.agent = "claude"
      · cases ht : i.transport <;>
          simp [renderServer, hc, hg, hl, ht, recognizedAgent] <;> tauto
      · cases ht : i.transport <;>
          simp [renderServer, hc, hg, hl, ht, recognizedAgent] <;> tauto

/-- Witness for `c2_amended` at a concrete recognized input. -/
theorem c2_witness :
    recognizedAgent (bareInput "cursor" Transport.http).agent = true ∧
      (recognizedAgent (bareInput "cursor" Transport.http).agent = true →
        undefFree (renderServer (bareInput "cursor" Transport.http)) = true) :=
  ⟨by decide, (c2_amended (bareInput "cursor" Transport.http)).1⟩

/-! ### Masking lemmas (status and configure commands) -/

theorem length_last4 (v : List Char) (h : 4 ≤ v.length) :
    (last4 v).length = 4 := by
  simp only [last4, List.length_drop]
  omega

theorem mask4_of_ge (v : List Char) (h : 4 ≤ v.length) :
    mask4 v = stars4 ++ last4 v := by
  have hne : v.length ≠ 0 := by omega
  simp [mask4, hne]

theorem last4_append_stars4 (d : List Char) (hd : d.length = 4) :
    last4 (stars4 ++ d) = d := by
  have h4 : (stars4 ++ d).length - 4 = stars4.length := by
    simp [stars4, hd]
  rw [last4, h4, List.drop_left]

theorem mask4_idem (v : List Char)
    (h : (v.isEmpty || decide (4 ≤ v.length)) = true) :
    mask4 (mask4 v) = mask4 v := by
  rcases Bool.or_eq_true_iff.mp h with he | hge
  · have hv : v = [] := by
      cases v
      · rfl
      · simp [List.isEmpty] at he
    subst hv
    rfl
  · have h4 : 4 ≤ v.length := of_decide_eq_true hge
    rw [mask4_of_ge v h4]
    have hlen : (stars4 ++ last4 v).length = 8 := by
      simp [stars4, length_last4 v h4]
    have hne : (stars4 ++ last4 v).length ≠ 0 := by omega
    rw [mask4, if_neg hne, last4_append_stars4 (last4 v) (length_last4 v h4)]

theorem maskLast4_idem (v : SVal) (h : stableStr v = true) :
    maskLast4 (maskLast4 v) = maskLast4 v := by
  cases v with
  | s cs => simp [maskLast4, mask4_idem cs (by simpa [stableStr] using h)]
  | o fields => rfl
  | other => rfl

theorem sensKey_headers : sensKey "headers" = false := by decide

theorem sensKey_env : sensKey "env" = false := by decide

theorem maskEntriesIf_cons (pred : String → Bool) (kv : String × SVal)
    (l : List (String × SVal)) :
    maskEntriesIf pred (kv :: l) =
      (if pred kv.1 then (kv.1, maskLast4 kv.2) else kv) :: maskEntriesIf pred l := rfl

theorem maskEntriesIf_idem (pred : String → Bool) (h : List (String × SVal))
    (hst : h.all (fun hv => !pred hv.1 || stableStr hv.2) = true) :
    maskEntriesIf pred (maskEntriesIf pred h) = maskEntriesIf pred h := by
  induction h with
  | nil => rfl
  | cons x xs ih =>
    rw [List.all_cons, Bool.and_eq_true] at hst
    obtain ⟨hx, hxs⟩ := hst
    by_cases hp : pred x.1 = true
    · have hstx : stableStr x.2 = true := by
        rcases Bool.or_eq_true_iff.mp hx with h1 | h1
        · rw [hp] at h1
          simp at h1
        · exact h1
      simp [maskEntriesIf_cons, hp, maskLast4_idem x.2 hstx, ih hxs]
    · simp [maskEntriesIf_cons, hp, ih hxs]

theorem redactEntry_headers_obj (fields : List (String × SVal)) :
    redactEntry ("headers", SVal.o fields) =
      ("headers", SVal.o (maskEntriesIf sensKey fields)) := by
  simp [redactEntry, redactHeadersEntry, redactEnvEntry, redactTopEntry,
    sensKey_headers]

theorem redactEntry_headers_str (cs : List Char) :
    redactEntry ("headers", SVal.s cs) = ("headers", SVal.s cs) := by
  simp [redactEntry, redactHeadersEntry, redactEnvEntry, redactTopEntry,
    sensKey_headers]

theorem redactEntry_headers_other :
    redactEntry ("headers", SVal.other) = ("headers", SVal.other) := by
  simp [redactEntry, redactHeadersEntry, redactEnvEntry, redactTopEntry,
    sensKey_headers]

theorem redactEntry_env_obj (fields : List (String × SVal)) :
    redactEntry ("env", SVal.o fields) =
      ("env", SVal.o (maskEntriesIf envSensKey fields)) := by
  simp [redactEntry, redactHeadersEntry, redactEnvEntry, redactTopEntry,
    sensKey_env]

theorem redactEntry_env_str (cs : List Char) :
    redactEntry ("env", SVal.s cs) = ("env", SVal.s cs) := by
  simp [redactEntry, redactHeadersEntry, redactEnvEntry, redactTopEntry,
    sensKey_env]

theorem redactEntry_env_other :
    redactEntry ("env", SVal.other) = ("env", SVal.other) := by
  simp [redactEntry, redactHeadersEntry, redactEnvEntry, redactTopEntry,
    sensKey_env]

theorem redactEntry_plain (k : String) (v : SVal) (h1 : ¬k = "headers")
    (h2 : ¬k = "env") :
    redactEntry (k, v) = if sensKey k = true then (k, maskLast4 v) else (k, v) := by
  by_cases hs : sensKey k = true <;>
    simp [redactEntry, redactHeadersEntry, redactEnvEntry, redactTopEntry,
      h1, h2, hs]

theorem redactEntry_idem (kv : String × SVal) (h : stableEntry kv = true) :
    redactEntry (redactEntry kv) = redactEntry kv := by
  obtain ⟨k, v⟩ := kv
  simp only [stableEntry, Bool.and_eq_true] at h
  obtain ⟨⟨htop, hhdr⟩, henv⟩ := h
  by_cases hk1 : k = "headers"
  · subst hk1
    cases v with
    | o fields =>
      have hh : fields.all (fun hv => !sensKey hv.1 || stableStr hv.2) = true := by
        simpa using hhdr
      rw [redactEntry_headers_obj, redactEntry_headers_obj,
        maskEntriesIf_idem sensKey fields hh]
    | s cs => rw [redactEntry_headers_str, redactEntry_headers_str]
    | other => rw [redactEntry_headers_other, redactEntry_headers_other]
  · by_cases hk2 : k = "env"
    · subst hk2
      cases v with
      | o fields =>
        have hh : fields.all (fun hv => !envSensKey hv.1 || stableStr hv.2) = true := by
          simpa using henv
        rw [redactEntry_env_obj, redactEntry_env_obj,
          maskEntriesIf_idem envSensKey fields hh]
      | s cs => rw [redactEntry_env_str, redactEntry_env_str]
      | other => rw [redactEntry_env_other, redactEntry_env_other]
    · by_cases hs : sensKey k = true
      · have hstv : stableStr v = true := by
          rcases Bool.or_eq_true_iff.mp htop with h1 | h1
          · rw [hs] at h1
            simp at h1
          · exact h1
        rw [redactEntry_plain k v hk1 hk2, if_pos hs,
          redactEntry_plain k (maskLast4 v) hk1 hk2, if_pos hs,
          maskLast4_idem v hstv]
      · rw [redactEntry_plain k v hk1 hk2, if_neg hs,
          redactEntry_plain k v hk1 hk2, if_neg hs]

theorem redactSensitive_eq_map (o : List (String × SVal)) :
    redactSensitive o = o.map redactEntry := by
  simp only [redactSensitive, structuredCloneSafe, List.map_map]
  rfl

/-- **C3, counterexample.** The masking law's "no other substring of `v`
of length ≥ 4" clause fails for values that themselves contain asterisks:
for `v = "****a"` the full secret `v` (length 5) reappears inside the
masked output `"*******a"`, and `v` differs from its last four
characters. -/
theorem c3_counterexample :
    mask4 "****a".data = "*******a".data ∧
      4 ≤ "****a".data.length ∧
      "****a".data <:+: mask4 "****a".data ∧
      "****a".data ≠ last4 "****a".data := by
  refine ⟨by decide, by decide, ?_, by decide⟩
  exact ⟨['*', '*', '*'], [], by decide⟩

/-- **C3, amended.** For `v` of length ≥ 4 both maskers (`maskLast4` in
the status command, `ConfigureCommand.redact` in the configure command)
produce exactly `****` followed by the last 4 characters of `v`, so the
output ends with the same last 4 characters; and provided `v` contains no
`*`, the output contains no substring of `v` of length ≥ 4 other than
those last four characters. -/
theorem c3_amended (v : List Char) (h4 : 4 ≤ v.length) :
    mask4 v = stars4 ++ last4 v ∧
      redact v = stars4 ++ last4 v ∧
      last4 v <:+ mask4 v ∧
      ('*' ∉ v →
        ∀ s : List Char, 4 ≤ s.length → s <:+: v → s <:+: mask4 v → s = last4 v) := by
  have hmask : mask4 v = stars4 ++ last4 v := mask4_of_ge v h4
  have hred : redact v = stars4 ++ last4 v := by
    have hne : v.isEmpty = false := by
      cases v
      · simp at h4
      · rfl
    simp [redact, hne]
  refine ⟨hmask, hred, ?_, ?_⟩
  · rw [hmask]
    exact List.suffix_append stars4 (last4 v)
  · intro hstar s hs4 hsv hsm
    have hstar_s : '*' ∉ s := fun hm => hstar (hsv.subset hm)
    obtain ⟨p, q, hpq⟩ := hsm
    rw [hmask] at hpq
    by_cases hp : 4 ≤ p.length
    · have hlast : (last4 v).length = 4 := length_last4 v h4
      have hlen : p.length + s.length + q.length = 8 := by
        have hl := congrArg List.length hpq
        simp [stars4, hlast] at hl
        omega
      have hq0 : q.length = 0 := by omega
      have hq : q = [] := List.length_eq_zero.mp hq0
      subst hq
      have hpq' : p ++ s = stars4 ++ last4 v := by simpa using hpq
      have hp4 : p.length = stars4.length := by
        simp only [stars4, List.length_cons, List.length_nil]
        omega
      exact List.append_inj_right hpq' hp4
    · push_neg at hp
      obtain ⟨c, s', rfl⟩ : ∃ c s', s = c :: s' := by
        cases s with
        | nil => simp at hs4
        | cons c s' => exact ⟨c, s', rfl⟩
      have hpq' : p ++ c :: (s' ++ q) = stars4 ++ last4 v := by
        simpa [List.append_assoc] using hpq
      have hdrop := congrArg (List.drop p.length) hpq'
      rw [List.drop_left] at hdrop
      have hc : c = '*' := by
        set n := p.length with hn
        interval_cases n <;> simp [stars4] at hdrop <;> exact hdrop.1
      exact absurd (hc ▸ List.mem_cons_self c s') hstar_s

/-- Witness for `c3_amended` at a concrete secret. -/
theorem c3_witness :
    4 ≤ "secretvalue".data.length ∧
      mask4 "secretvalue".data = stars4 ++ last4 "secretvalue".data :=
  ⟨by decide, (c3_amended "secretvalue".data (by decide)).1⟩

/-- **C4, counterexample.** `redactSensitive` is not idempotent on
sensitive values shorter than 4 characters: masking `"ab"` yields
`"****ab"` (length 6) and masking again yields `"******ab"` (length 8). -/
theorem c4_counterexample :
    redactSensitive (redactSensitive [("token", SVal.s "ab".data)]) ≠
      redactSensitive [("token", SVal.s "ab".data)] := by
  intro heq
  have h1 : svalHeadStrLen
      (redactSensitive (redactSensitive [("token", SVal.s "ab".data)])) = 8 := by
    rfl
  have h2 : svalHeadStrLen (redactSensitive [("token", SVal.s "ab".data)]) = 6 := by
    rfl
  rw [heq, h2] at h1
  exact absurd h1 (by decide)

attribute [irreducible] redactEntry

theorem map_redactEntry_idem (l : List (String × SVal)) :
    (∀ kv ∈ l, stableEntry kv = true) →
      List.map (redactEntry ∘ redactEntry) l = List.map redactEntry l := by
  induction l with
  | nil => intro _; rfl
  | cons x xs ih =>
    intro hl
    have hx := redactEntry_idem x (hl x (List.mem_cons_self x xs))
    have ihh := ih (fun kv hkv => hl kv (List.mem_cons_of_mem x hkv))
    simp only [List.map_cons, Function.comp_apply, hx, ihh]

/-- **C4, amended.** `redactSensitive` is idempotent on every object
whose sensitive positions (top-level sensitive keys, sensitive keys of an
object-valued `headers`, env-pattern keys of an object-valued `env`) hold
strings that are empty or at least 4 characters long; the claim's
inclusion of shorter sensitive values is refuted by `c4_counterexample`. -/
theorem c4_amended (o : List (String × SVal)) (h : stableObj o = true) :
    redactSensitive (redactSensitive o) = redactSensitive o := by
  rw [redactSensitive_eq_map (redactSensitive o), redactSensitive_eq_map o,
    List.map_map]
  exact map_redactEntry_idem o (List.all_eq_true.mp h)

/-- Witness for `c4_amended` on a concrete stable object. -/
theorem c4_witness :
    stableObj [("token", SVal.s "abcdefgh".data)] = true ∧
      redactSensitive (redactSensitive [("token", SVal.s "abcdefgh".data)]) =
        redactSensitive [("token", SVal.s "abcdefgh".data)] :=
  ⟨by decide, c4_amended [("token", SVal.s "abcdefgh".data)] (by decide)⟩

/-! ### Character-class facts -/

theorem plainChar_ne (c x : Char) (h : plainChar c = true) (hx : plainChar x = false) :
    (c = x) = False := by
  apply eq_false
  intro e
  rw [e, hx] at h
  exact Bool.false_ne_true h

theorem plainChar_not_ws (c : Char) (h : plainChar c = true) : isWsC c = false := by
  simp [isWsC, plainChar_ne c ' ' h (by decide), plainChar_ne c '\t' h (by decide),
    plainChar_ne c '\n' h (by decide), plainChar_ne c '\r' h (by decide),
    plainChar_ne c '\x0b' h (by decide), plainChar_ne c '\x0c' h (by decide)]

theorem plainChar_notNl (c : Char) (h : plainChar c = true) : notNl c = true := by
  simp [notNl, plainChar_ne c '\n' h (by decide), plainChar_ne c '\r' h (by decide)]

theorem plainChar_bearerTok (c : Char) (h : plainChar c = true) : bearerTok c = true := by
  simp [bearerTok, plainChar_not_ws c h, plainChar_ne c '"' h (by decide),
    plainChar_ne c (Char.ofNat 39) h (by decide)]

theorem plainChar_ne_colon (c : Char) (h : plainChar c = true) : (c = ':') = False :=
  plainChar_ne c ':' h (by decide)

/-! ### takeWhile and drop bookkeeping -/

theorem takeWhile_forall (p : Char → Bool) :
    ∀ l : List Char, ∀ c ∈ l.takeWhile p, p c = true := by
  intro l
  induction l with
  | nil => intro c hc; simp at hc
  | cons a as ih =>
    intro c hc
    rw [List.takeWhile_cons] at hc
    by_cases ha : p a = true
    · rw [if_pos ha] at hc
      rcases List.mem_cons.mp hc with h1 | h1
      · rw [h1]; exact ha
      · exact ih c h1
    · rw [if_neg ha] at hc
      simp at hc

theorem takeWhile_plain_ws (v : List Char) (hv : ∀ c ∈ v, plainChar c = true) :
    v.takeWhile isWsC = [] := by
  cases v with
  | nil => rfl
  | cons c cs =>
    rw [List.takeWhile_cons,
      if_neg (by rw [plainChar_not_ws c (hv c (List.mem_cons_self c cs))]; simp)]

theorem takeWhile_plain_notNl (v : List Char) (hv : ∀ c ∈ v, plainChar c = true) :
    v.takeWhile notNl = v := by
  induction v with
  | nil => rfl
  | cons c cs ih =>
    rw [List.takeWhile_cons,
      if_pos (plainChar_notNl c (hv c (List.mem_cons_self c cs))),
      ih (fun x hx => hv x (List.mem_cons_of_mem c hx))]

theorem takeWhile_plain_bearerTok (v : List Char) (hv : ∀ c ∈ v, plainChar c = true) :
    v.takeWhile bearerTok = v := by
  induction v with
  | nil => rfl
  | cons c cs ih =>
    rw [List.takeWhile_cons,
      if_pos (plainChar_bearerTok c (hv c (List.mem_cons_self c cs))),
      ih (fun x hx => hv x (List.mem_cons_of_mem c hx))]

theorem drop_takeWhile_len (p : Char → Bool) :
    ∀ l : List Char, l.drop (l.takeWhile p).length = l.dropWhile p := by
  intro l
  induction l with
  | nil => rfl
  | cons a as ih =>
    rw [List.takeWhile_cons, List.dropWhile_cons]
    by_cases ha : p a = true
    · rw [if_pos ha, if_pos ha, List.length_cons, List.drop_succ_cons, ih]
    · rw [if_neg ha, if_neg ha, List.length_nil, List.drop_zero]

theorem takeWhile_append_all (p : Char → Bool) :
    ∀ (x y : List Char), (∀ c ∈ x, p c = true) →
      (x ++ y).takeWhile p = x ++ y.takeWhile p := by
  intro x y
  induction x with
  | nil => intro _; rfl
  | cons a as ih =>
    intro hx
    rw [List.cons_append, List.takeWhile_cons,
      if_pos (hx a (List.mem_cons_self a as)),
      ih (fun c hc => hx c (List.mem_cons_of_mem a hc)), List.cons_append]

/-! ### ciStrip lemmas -/

theorem ciStrip_self (K r : List Char) : ciStrip K (K ++ r) = some r := by
  induction K with
  | nil => rfl
  | cons p ps ih => simp [ciStrip, ih]

theorem ciStrip_suffix :
    ∀ (K s r : List Char), ciStrip K s = some r → r <:+ s := by
  intro K
  induction K with
  | nil =>
    intro s r h
    simp only [ciStrip, Option.some.injEq] at h
    rw [← h]
  | cons p ps ih =>
    intro s r h
    cases s with
    | nil => simp [ciStrip] at h
    | cons c cs =>
      rw [ciStrip] at h
      by_cases hc : lcc c = lcc p
      · rw [if_pos hc] at h
        exact (ih cs r h).trans (List.suffix_cons c cs)
      · rw [if_neg hc] at h
        cases h

theorem ciStrip_append_of_ciStrip2 :
    ∀ (K C v : List Char),
      ciStrip K (C ++ v) =
        (match ciStrip2 K C with
        | none => none
        | some ([], rest) => some (rest ++ v)
        | some (p :: ps, _) => ciStrip (p :: ps) v) := by
  intro K
  induction K with
  | nil => intro C v; simp [ciStrip, ciStrip2]
  | cons p ps ih =>
    intro C v
    cases C with
    | nil => simp [ciStrip2]
    | cons c cs =>
      rw [List.cons_append, ciStrip, ciStrip2]
      by_cases hc : lcc c = lcc p
      · rw [if_pos hc, if_pos hc]
        exact ih cs v
      · rw [if_neg hc, if_neg hc]

/-! ### Guaranteed-failure lemmas for the header scanner -/

theorem dropWhile_head_not (p : Char → Bool) :
    ∀ (l : List Char) (c : Char) (d : List Char),
      l.dropWhile p = c :: d → p c = false := by
  intro l
  induction l with
  | nil => intro c d h; simp at h
  | cons a as ih =>
    intro c d h
    rw [List.dropWhile_cons] at h
    by_cases ha : p a = true
    · rw [if_pos ha] at h
      exact ih c d h
    · rw [if_neg ha] at h
      rw [List.cons.injEq] at h
      rw [← h.1]
      simpa using ha

theorem ciStrip_append_none (K C v : List Char) (h : ciStrip2 K C = none) :
    ciStrip K (C ++ v) = none := by
  simp [ciStrip_append_of_ciStrip2 K C v, h]

theorem ciStrip_append_done (K C v rest : List Char)
    (h : ciStrip2 K C = some ([], rest)) :
    ciStrip K (C ++ v) = some (rest ++ v) := by
  simp [ciStrip_append_of_ciStrip2 K C v, h]

theorem ciStrip_append_cont (K C v rest : List Char) (p : Char) (ps : List Char)
    (h : ciStrip2 K C = some (p :: ps, rest)) :
    ciStrip K (C ++ v) = ciStrip (p :: ps) v := by
  simp [ciStrip_append_of_ciStrip2 K C v, h]

/-- On a suffix made only of plain characters the header regex cannot
match: the mandatory colon is not a plain character. -/
theorem tryHdr_plain_none (K s : List Char) (hs : ∀ c ∈ s, plainChar c = true) :
    tryHdr K s = none := by
  rw [tryHdr]
  cases hcs : ciStrip K s with
  | none => rfl
  | some r1 =>
    have hsub : ∀ c ∈ r1, plainChar c = true := fun c hc =>
      hs c ((ciStrip_suffix K s r1 hcs).subset hc)
    rw [tryHdrAux, takeWhile_plain_ws r1 hsub]
    simp only [List.length_nil, List.drop_zero]
    cases r1 with
    | nil => rfl
    | cons c r3 =>
      rw [tryHdrColon,
        if_neg (by rw [plainChar_ne_colon c (hsub c (List.mem_cons_self c r3))]; exact id)]

theorem tryHdr_append_none (K C v : List Char) (hv : ∀ c ∈ v, plainChar c = true)
    (hfail : hdrFailsOn K C = true) : tryHdr K (C ++ v) = none := by
  rw [hdrFailsOn] at hfail
  cases h2 : ciStrip2 K C with
  | none =>
    rw [tryHdr, ciStrip_append_none K C v h2]
    rfl
  | some pr =>
    obtain ⟨Krem, rest⟩ := pr
    rw [h2] at hfail
    cases Krem with
    | cons p ps =>
      rw [tryHdr, ciStrip_append_cont K C v rest p ps h2]
      cases h3 : ciStrip (p :: ps) v with
      | none => rfl
      | some r1 =>
        have hsub : ∀ c ∈ r1, plainChar c = true := fun c hc =>
          hv c ((ciStrip_suffix _ v r1 h3).subset hc)
        rw [tryHdrAux, takeWhile_plain_ws r1 hsub]
        simp only [List.length_nil, List.drop_zero]
        cases r1 with
        | nil => rfl
        | cons c r3 =>
          rw [tryHdrColon,
            if_neg (by rw [plainChar_ne_colon c (hsub c (List.mem_cons_self c r3))]; exact id)]
    | nil =>
      rw [hdrFailsOnAux, wsColonFails, drop_takeWhile_len] at hfail
      rw [tryHdr, ciStrip_append_done K C v rest h2, tryHdrAux]
      cases hdw : rest.dropWhile isWsC with
      | nil =>
        have hrest : rest.takeWhile isWsC = rest := by
          have hsplit := List.takeWhile_append_dropWhile isWsC rest
          rw [hdw, List.append_nil] at hsplit
          exact hsplit
        have hrw : ∀ c ∈ rest, isWsC c = true := by
          intro c hc
          rw [← hrest] at hc
          exact takeWhile_forall isWsC rest c hc
        have hTW : (rest ++ v).takeWhile isWsC = rest := by
          rw [takeWhile_append_all isWsC rest v hrw, takeWhile_plain_ws v hv,
            List.append_nil]
        rw [hTW, List.drop_left]
        cases v with
        | nil => rfl
        | cons c cs =>
          rw [tryHdrColon,
            if_neg (by rw [plainChar_ne_colon c (hv c (List.mem_cons_self c cs))]; exact id)]
      | cons c d =>
        rw [hdw, headIsColon] at hfail
        have hcolon : ¬(c = ':') := by
          intro e
          rw [e] at hfail
          simp at hfail
        have hcws : isWsC c = false := dropWhile_head_not isWsC rest c d hdw
        have hsplit := List.takeWhile_append_dropWhile isWsC rest
        rw [hdw] at hsplit
        have hTW : (rest ++ v).takeWhile isWsC = rest.takeWhile isWsC := by
          conv_lhs => rw [← hsplit]
          rw [List.append_assoc, List.cons_append,
            takeWhile_append_all isWsC _ _ (takeWhile_forall isWsC rest),
            List.takeWhile_cons, if_neg (by simp [hcws]), List.append_nil]
        have h1 : rest.takeWhile isWsC ++ (c :: (d ++ v)) = rest ++ v := by
          rw [← List.cons_append, ← List.append_assoc, hsplit]
        have hDR : (rest ++ v).drop ((rest.takeWhile isWsC).length) =
            c :: (d ++ v) := by
          rw [← h1, List.drop_left]
        rw [hTW, hDR, tryHdrColon, if_neg hcolon]

/-! ### Guaranteed-failure lemmas for the bearer scanner -/

theorem tryBearer_plain_none (s : List Char) (hs : ∀ c ∈ s, plainChar c = true) :
    tryBearer s = none := by
  rw [tryBearer]
  cases hcs : ciStrip "--oauth2bearer".data s with
  | none => rfl
  | some r1 =>
    have hsub : ∀ c ∈ r1, plainChar c = true := fun c hc =>
      hs c ((ciStrip_suffix _ s r1 hcs).subset hc)
    simp [tryBearerAux, takeWhile_plain_ws r1 hsub]

theorem tryBearer_append_none (C v : List Char) (hv : ∀ c ∈ v, plainChar c = true)
    (hfail : bearerFailsOn C = true) : tryBearer (C ++ v) = none := by
  rw [bearerFailsOn] at hfail
  cases h2 : ciStrip2 "--oauth2bearer".data C with
  | none =>
    rw [tryBearer, ciStrip_append_none _ C v h2]
    rfl
  | some pr =>
    obtain ⟨Krem, rest⟩ := pr
    rw [h2] at hfail
    cases Krem with
    | cons p ps =>
      rw [tryBearer, ciStrip_append_cont _ C v rest p ps h2]
      cases h3 : ciStrip (p :: ps) v with
      | none => rfl
      | some r1 =>
        have hsub : ∀ c ∈ r1, plainChar c = true := fun c hc =>
          hv c ((ciStrip_suffix _ v r1 h3).subset hc)
        simp [tryBearerAux, takeWhile_plain_ws r1 hsub]
    | nil =>
      rw [bearerFailsOnAux] at hfail
      rw [tryBearer, ciStrip_append_done _ C v rest h2]
      have hre : rest.takeWhile isWsC = [] := List.isEmpty_iff.mp hfail
      have hTW : (rest ++ v).takeWhile isWsC = [] := by
        cases rest with
        | nil => simpa using takeWhile_plain_ws v hv
        | cons c cs =>
          rw [List.takeWhile_cons] at hre
          by_cases hc : isWsC c = true
          · rw [if_pos hc] at hre
            simp at hre
          · rw [List.cons_append, List.takeWhile_cons, if_neg hc]
      simp [tryBearerAux, hTW]

/-! ### Scan-level lemmas -/

theorem hdrScan_nil (key ph : List Char) (f : Nat) : hdrScan key ph f [] = [] := by
  cases f <;> rfl

theorem hdrScan_cons_none (key ph : List Char) (f : Nat) (c : Char) (cs : List Char)
    (h : tryHdr key (c :: cs) = none) :
    hdrScan key ph (f + 1) (c :: cs) = c :: hdrScan key ph f cs := by
  simp [hdrScan, h]

theorem hdrScan_cons_some (key ph : List Char) (f : Nat) (c : Char) (cs pfx rest : List Char)
    (h : tryHdr key (c :: cs) = some (pfx, rest)) :
    hdrScan key ph (f + 1) (c :: cs) = pfx ++ ph ++ hdrScan key ph f rest := by
  simp [hdrScan, h]

theorem hdrScan_id (key ph : List Char) :
    ∀ (f : Nat) (s : List Char),
      (∀ n, tryHdr key (s.drop n) = none) → hdrScan key ph f s = s := by
  intro f
  induction f with
  | zero => intro s _; rfl
  | succ g ih =>
    intro s hall
    cases s with
    | nil => rfl
    | cons c cs =>
      rw [hdrScan_cons_none key ph g c cs (by simpa using hall 0),
        ih cs (fun n => by simpa [List.drop_succ_cons] using hall (n + 1))]

theorem hdrPass_id (key ph C v : List Char) (hv : ∀ c ∈ v, plainChar c = true)
    (hid : hdrIdOn key C = true) : hdrPass key ph (C ++ v) = C ++ v := by
  rw [hdrIdOn, hdrIdUpTo] at hid
  apply hdrScan_id
  intro n
  by_cases hn : n ≤ C.length
  · rw [List.drop_append_of_le_length hn]
    apply tryHdr_append_none _ _ _ hv
    have h := List.all_eq_true.mp hid n (List.mem_range.mpr (by omega))
    simpa using h
  · push_neg at hn
    have heq : n = C.length + (n - C.length) := by omega
    rw [heq, List.drop_append]
    exact tryHdr_plain_none key _ (fun c hc => hv c (List.mem_of_mem_drop hc))

theorem bearerScan_nil (f : Nat) : bearerScan f [] = [] := by
  cases f <;> rfl

theorem bearerScan_cons_none (f : Nat) (c : Char) (cs : List Char)
    (h : tryBearer (c :: cs) = none) :
    bearerScan (f + 1) (c :: cs) = c :: bearerScan f cs := by
  simp [bearerScan, h]

theorem bearerScan_id :
    ∀ (f : Nat) (s : List Char),
      (∀ n, tryBearer (s.drop n) = none) → bearerScan f s = s := by
  intro f
  induction f with
  | zero => intro s _; rfl
  | succ g ih =>
    intro s hall
    cases s with
    | nil => rfl
    | cons c cs =>
      rw [bearerScan_cons_none g c cs (by simpa using hall 0),
        ih cs (fun n => by simpa [List.drop_succ_cons] using hall (n + 1))]

theorem bearerPass_id (C v : List Char) (hv : ∀ c ∈ v, plainChar c = true)
    (hid : bearerIdOn C = true) : bearerPass (C ++ v) = C ++ v := by
  rw [bearerIdOn] at hid
  apply bearerScan_id
  intro n
  by_cases hn : n ≤ C.length
  · rw [List.drop_append_of_le_length hn]
    apply tryBearer_append_none _ _ hv
    have h := List.all_eq_true.mp hid n (List.mem_range.mpr (by omega))
    simpa using h
  · push_neg at hn
    have heq : n = C.length + (n - C.length) := by omega
    rw [heq, List.drop_append]
    exact tryBearer_plain_none _ (fun c hc => hv c (List.mem_of_mem_drop hc))

/-! ### Head-match and mid-string match of the header regex -/

theorem tryHdr_head (K v : List Char) (hv : ∀ c ∈ v, plainChar c = true)
    (hne : v ≠ []) :
    tryHdr K (K ++ ':' :: ' ' :: v) = some (K ++ [':', ' '], []) := by
  rw [tryHdr, ciStrip_self K (':' :: ' ' :: v), tryHdrAux]
  have hws1 : isWsC ':' = false := by decide
  have hws2 : isWsC ' ' = true := by decide
  have h1 : (':' :: ' ' :: v).takeWhile isWsC = [] := by
    rw [List.takeWhile_cons, hws1]
    simp
  rw [h1]
  simp only [List.length_nil, List.drop_zero]
  rw [tryHdrColon, if_pos rfl]
  have h2 : (' ' :: v).takeWhile isWsC = [' '] := by
    rw [List.takeWhile_cons, if_pos hws2, takeWhile_plain_ws v hv]
  rw [h2]
  have h4 : (' ' :: v).drop [' '].length = v := by
    simp
  rw [h4, takeWhile_plain_notNl v hv]
  have h3 : v.isEmpty = false := by
    cases v
    · exact absurd rfl hne
    · rfl
  rw [h3]
  simp [h1, h2, List.take_left, List.drop_length]

theorem hdrScan_split (key ph : List Char) :
    ∀ (pre : List Char) (f : Nat) (s : List Char),
      (∀ n, n < pre.length → tryHdr key ((pre ++ s).drop n) = none) →
      hdrScan key ph (pre.length + f) (pre ++ s) = pre ++ hdrScan key ph f s := by
  intro pre
  induction pre with
  | nil => intro f s _; simp
  | cons c pre' ih =>
    intro f s hall
    have h0 : tryHdr key (c :: (pre' ++ s)) = none := by
      simpa using hall 0 (by simp)
    have hih := ih f s (fun n hn => by
      simpa [List.drop_succ_cons] using hall (n + 1) (by simp; omega))
    have hf : (c :: pre').length + f = (pre'.length + f) + 1 := by
      simp [List.length_cons]
      omega
    rw [List.cons_append, hf, hdrScan_cons_none key ph _ c _ h0, hih,
      List.cons_append]

theorem hdrScan_step_ne (key ph : List Char) (f : Nat) (s pfx rest : List Char)
    (hs : s ≠ []) (h : tryHdr key s = some (pfx, rest)) :
    hdrScan key ph (f + 1) s = pfx ++ ph ++ hdrScan key ph f rest := by
  cases s with
  | nil => exact absurd rfl hs
  | cons c cs => exact hdrScan_cons_some key ph f c cs pfx rest h

theorem hdrPass_replace (K ph v : List Char) (hv : ∀ c ∈ v, plainChar c = true)
    (hne : v ≠ []) :
    hdrPass K ph (K ++ ':' :: ' ' :: v) = K ++ ':' :: ' ' :: ph := by
  rw [hdrPass]
  have hne2 : (K ++ ':' :: ' ' :: v) ≠ [] := by simp
  have hpos : 0 < (K ++ ':' :: ' ' :: v).length := List.length_pos.mpr hne2
  have hlen : (K ++ ':' :: ' ' :: v).length =
      ((K ++ ':' :: ' ' :: v).length - 1) + 1 := by omega
  rw [hlen, hdrScan_step_ne K ph _ _ _ _ hne2 (tryHdr_head K v hv hne), hdrScan_nil]
  simp

theorem redactString_auth (v : List Char) (hv : ∀ c ∈ v, plainChar c = true)
    (hne : v ≠ []) :
    redactString ("authorization: ".data ++ v) =
      "authorization: ".data ++ placeholderFor "authorization" := by
  have h1 : bearerPass ("authorization: ".data ++ v) = "authorization: ".data ++ v :=
    bearerPass_id "authorization: ".data v hv (by decide)
  have h2 : hdrPass "authorization".data (placeholderFor "authorization")
      ("authorization: ".data ++ v) =
      "authorization: ".data ++ placeholderFor "authorization" :=
    hdrPass_replace "authorization".data (placeholderFor "authorization") v hv hne
  rw [redactString, h1, h2]
  decide

theorem redactString_api (v : List Char) (hv : ∀ c ∈ v, plainChar c = true)
    (hne : v ≠ []) :
    redactString ("x-api-key: ".data ++ v) =
      "x-api-key: ".data ++ placeholderFor "x-api-key" := by
  have h1 : bearerPass ("x-api-key: ".data ++ v) = "x-api-key: ".data ++ v :=
    bearerPass_id "x-api-key: ".data v hv (by decide)
  have h2 : hdrPass "authorization".data (placeholderFor "authorization")
      ("x-api-key: ".data ++ v) = "x-api-key: ".data ++ v :=
    hdrPass_id "authorization".data (placeholderFor "authorization")
      "x-api-key: ".data v hv (by decide)
  have h3 : hdrPass "x-api-key".data (placeholderFor "x-api-key")
      ("x-api-key: ".data ++ v) =
      "x-api-key: ".data ++ placeholderFor "x-api-key" :=
    hdrPass_replace "x-api-key".data (placeholderFor "x-api-key") v hv hne
  rw [redactString, h1, h2, h2, h3]
  decide

theorem redactString_xauth (v : List Char) (hv : ∀ c ∈ v, plainChar c = true)
    (hne : v ≠ []) :
    redactString ("x-auth-token: ".data ++ v) =
      "x-auth-token: ".data ++ placeholderFor "x-auth-token" := by
  have h1 : bearerPass ("x-auth-token: ".data ++ v) = "x-auth-token: ".data ++ v :=
    bearerPass_id "x-auth-token: ".data v hv (by decide)
  have h2 : hdrPass "authorization".data (placeholderFor "authorization")
      ("x-auth-token: ".data ++ v) = "x-auth-token: ".data ++ v :=
    hdrPass_id "authorization".data (placeholderFor "authorization")
      "x-auth-token: ".data v hv (by decide)
  have h3 : hdrPass "x-api-key".data (placeholderFor "x-api-key")
      ("x-auth-token: ".data ++ v) = "x-auth-token: ".data ++ v :=
    hdrPass_id "x-api-key".data (placeholderFor "x-api-key")
      "x-auth-token: ".data v hv (by decide)
  have h4 : hdrPass "x-auth-token".data (placeholderFor "x-auth-token")
      ("x-auth-token: ".data ++ v) =
      "x-auth-token: ".data ++ placeholderFor "x-auth-token" :=
    hdrPass_replace "x-auth-token".data (placeholderFor "x-auth-token") v hv hne
  rw [redactString, h1, h2, h2, h3, h4]
  decide

theorem redactString_xaccess (v : List Char) (hv : ∀ c ∈ v, plainChar c = true)
    (hne : v ≠ []) :
    redactString ("x-access-token: ".data ++ v) =
      "x-access-token: ".data ++ placeholderFor "x-access-token" := by
  have h1 : bearerPass ("x-access-token: ".data ++ v) = "x-access-token: ".data ++ v :=
    bearerPass_id "x-access-token: ".data v hv (by decide)
  have h2 : hdrPass "authorization".data (placeholderFor "authorization")
      ("x-access-token: ".data ++ v) = "x-access-token: ".data ++ v :=
    hdrPass_id "authorization".data (placeholderFor "authorization")
      "x-access-token: ".data v hv (by decide)
  have h3 : hdrPass "x-api-key".data (placeholderFor "x-api-key")
      ("x-access-token: ".data ++ v) = "x-access-token: ".data ++ v :=
    hdrPass_id "x-api-key".data (placeholderFor "x-api-key")
      "x-access-token: ".data v hv (by decide)
  have h4 : hdrPass "x-auth-token".data (placeholderFor "x-auth-token")
      ("x-access-token: ".data ++ v) = "x-access-token: ".data ++ v :=
    hdrPass_id "x-auth-token".data (placeholderFor "x-auth-token")
      "x-access-token: ".data v hv (by decide)
  have h5 : hdrPass "x-access-token".data (placeholderFor "x-access-token")
      ("x-access-token: ".data ++ v) =
      "x-access-token: ".data ++ placeholderFor "x-access-token" :=
    hdrPass_replace "x-access-token".data (placeholderFor "x-access-token") v hv hne
  rw [redactString, h1, h2, h2, h3, h4, h5]
  decide

theorem hdrPass_proxy_auth (v : List Char) (hv : ∀ c ∈ v, plainChar c = true)
    (hne : v ≠ []) :
    hdrPass "authorization".data (placeholderFor "authorization")
      ("proxy-authorization: ".data ++ v) =
      "proxy-authorization: ".data ++ placeholderFor "authorization" := by
  have hform : "proxy-authorization: ".data ++ v =
      "proxy-".data ++ ("authorization: ".data ++ v) := by
    rw [← List.append_assoc]
    rfl
  have hpre : ∀ n, n < "proxy-".data.length →
      tryHdr "authorization".data
        (("proxy-".data ++ ("authorization: ".data ++ v)).drop n) = none := by
    intro n hn
    have hn6 : n < 6 := by
      have h6 : "proxy-".data.length = 6 := by decide
      omega
    have hd : ("proxy-".data ++ ("authorization: ".data ++ v)).drop n =
        "proxy-authorization: ".data.drop n ++ v := by
      rw [← hform]
      exact List.drop_append_of_le_length (by
        have h21 : "proxy-authorization: ".data.length = 21 := by decide
        omega)
    rw [hd]
    apply tryHdr_append_none _ _ _ hv
    have hup : hdrIdUpTo "authorization".data "proxy-authorization: ".data 6 = true := by
      decide
    rw [hdrIdUpTo] at hup
    have h := List.all_eq_true.mp hup n (List.mem_range.mpr hn6)
    simpa using h
  have hrepl : hdrPass "authorization".data (placeholderFor "authorization")
      ("authorization: ".data ++ v) =
      "authorization: ".data ++ placeholderFor "authorization" :=
    hdrPass_replace "authorization".data (placeholderFor "authorization") v hv hne
  rw [hdrPass] at hrepl ⊢
  rw [hform, List.length_append,
    hdrScan_split "authorization".data (placeholderFor "authorization")
      "proxy-".data (("authorization: ".data ++ v).length)
      ("authorization: ".data ++ v) hpre, hrepl, ← List.append_assoc]
  rfl

theorem redactString_proxy (v : List Char) (hv : ∀ c ∈ v, plainChar c = true)
    (hne : v ≠ []) :
    redactString ("proxy-authorization: ".data ++ v) =
      "proxy-authorization: ".data ++ placeholderFor "proxy-authorization" := by
  have h1 : bearerPass ("proxy-authorization: ".data ++ v) =
      "proxy-authorization: ".data ++ v :=
    bearerPass_id "proxy-authorization: ".data v hv (by decide)
  have h2 := hdrPass_proxy_auth v hv hne
  rw [redactString, h1, h2]
  decide

/-! ### C5: structure preservation of redaction -/

/-- **C5.** The claim says `redactForLogs` on an argv-style string array
returns an array with the same number of elements in the same positions.
The argv branch violates this: when the case-insensitive
`--oauth2Bearer` flag is the last element, the loop pushes the flag and
then falls through (the `continue` guarding the placeholder push only
fires when a following token exists) and pushes a redacted copy of the
same element again, so a one-element input yields a two-element output. -/
theorem c5_bug :
    (redactArgv ["--oauth2Bearer".data]).length = 2 ∧
      (["--oauth2Bearer".data] : List (List Char)).length = 1 := by
  exact ⟨rfl, rfl⟩

/-! ### C6: the object branch mutates the caller's nested objects -/

/-- **C6.** The claim says redaction is non-mutating and operates on a
deep copy.  The object branch of `redactForLogs` copies only the top
level (`const clone = { ...x }`), so nested objects are shared with the
caller's input; the in-place walk then assigns redacted strings through
those shared references.  On the heap `{ h: { authorization: "secret" } }`
(cell 0 the argument, cell 1 its nested object), the call redacts cell 1
in place: after the call the caller's object still references cell 1,
whose `authorization` value has been overwritten. -/
theorem c6_bug :
    heapGet c6heap 1 = [("authorization", HV.hstr "secret".data)] ∧
    heapGet (redactForLogsObj 0 c6heap).2 1 =
      [("authorization", HV.hstr "<redacted:authorization>".data)] ∧
    heapGet (redactForLogsObj 0 c6heap).2 0 = [("h", HV.href 1)] :=
  ⟨rfl, rfl, rfl⟩

/-! ### C7: validateOptions never checks the stdio command -/

/-- **C7.** Counterexample to the claim: a non-interactive, non-dry-run
stdio spec with no command passes validation (`Except.ok`), even when
every URL is invalid and every directory is missing, because
`validateOptions` has no stdio-command check at all. -/
theorem c7_counterexample :
    validateOptions (fun _ => false) (fun _ => DirStatus.missing)
      { interactive := false, dryRun := false, transport := Transport.stdio,
        mcpServerEndpoint := none, command := none, configDir := none } =
      Except.ok () := rfl

/-- **C7.** Amended property: for http/sse transports the claimed checks
do exist — in non-interactive, non-dry-run mode a missing (or empty, JS
falsiness) endpoint is rejected with the required-endpoint error, and a
present non-empty endpoint the URL constructor rejects is reported as an
invalid URL.  (The stdio missing-command check of the claim does not
exist; see the counterexample.) -/
theorem c7_amended (urlOk : String → Bool) (dirStat : String → DirStatus)
    (o : CfgOptions) (hurl : requiresUrl o.transport = true) :
    (o.interactive = false → o.dryRun = false →
      optTruthy o.mcpServerEndpoint = false →
      validateOptions urlOk dirStat o = Except.error VErr.endpointRequired) ∧
    (∀ u, o.mcpServerEndpoint = some u → u.isEmpty = false → urlOk u = false →
      validateOptions urlOk dirStat o = Except.error (VErr.invalidUrl u)) := by
  constructor
  · intro hi hd he
    have h1 : checkEndpointRequired o = Except.error VErr.endpointRequired := by
      simp [checkEndpointRequired, hi, hd, he, hurl]
    rw [validateOptions, h1]
  · intro u hu hne hbad
    have h1 : checkEndpointRequired o = Except.ok () := by
      simp [checkEndpointRequired, optTruthy, hu, hne]
    have h2 : checkUrl urlOk o = Except.error (VErr.invalidUrl u) := by
      simp [checkUrl, hu, hne, hurl, hbad]
    rw [validateOptions, h1, h2]

/-- **C7.** Witness: both amended checks at concrete inputs. -/
theorem c7_witness :
    validateOptions (fun _ => false) (fun _ => DirStatus.dir)
      { interactive := false, dryRun := false, transport := Transport.http,
        mcpServerEndpoint := none, command := none, configDir := none } =
      Except.error VErr.endpointRequired ∧
    validateOptions (fun _ => false) (fun _ => DirStatus.dir)
      { interactive := false, dryRun := false, transport := Transport.http,
        mcpServerEndpoint := some "not a url", command := none,
        configDir := none } =
      Except.error (VErr.invalidUrl "not a url") := by
  constructor
  · exact (c7_amended (fun _ => false) (fun _ => DirStatus.dir)
      { interactive := false, dryRun := false, transport := Transport.http,
        mcpServerEndpoint := none, command := none, configDir := none }
      rfl).1 rfl rfl rfl
  · exact (c7_amended (fun _ => false) (fun _ => DirStatus.dir)
      { interactive := false, dryRun := false, transport := Transport.http,
        mcpServerEndpoint := some "not a url", command := none,
        configDir := none }
      rfl).2 "not a url" rfl rfl rfl

/-! ### C8: Codex TOML parse failures are silently swallowed -/

/-- **C8.** The claim says an unparseable config file yields a status
with an error attached to that agent, including for the TOML-format
Codex CLI provider.  For JSON agents this holds (the `readJsonFile`
failure reaches the outer catch and is attached), and sibling agents are
unaffected; but for Codex CLI the inner empty `catch` swallows the
`TOML.parse` failure, so the provider is reported with `servers: []` and
no error at all — an unparseable Codex config is indistinguishable from
one with no MCP servers. -/
theorem c8_bug :
    buildProviderStatuses
      [DetInput.codex "Codex CLI" "/home/u/.codex/config.toml"
          (Except.ok "mcp_servers = [broken") (Except.error "bad TOML"),
        DetInput.jsonAgent "Gemini CLI" "/home/u/.gemini/settings.json"
          (Except.error "Unexpected token in JSON")] =
      [{ name := "Codex CLI", detected := true,
          configPath := some "/home/u/.codex/config.toml", error := none,
          servers := some [] },
        { name := "Gemini CLI", detected := true,
          configPath := some "/home/u/.gemini/settings.json",
          error := some "Unexpected token in JSON", servers := none }] := by
  exact rfl

/-! ### C1: transaction rollback restores the pre-transaction state -/

theorem fsSet_fsSet_get (fs : FSState) (p : String) (d dOld : FileDoc)
    (h : fsGet fs p = some dOld) : fsSet (fsSet fs p d) p dOld = fs := by
  induction fs with
  | nil => simp [fsGet] at h
  | cons e rest ih =>
    obtain ⟨e1, e2⟩ := e
    by_cases hp : e1 = p
    · subst hp
      simp [fsGet] at h
      simp [fsSet, h]
    · simp [fsGet, hp] at h
      simp [fsSet, hp]
      rw [ih h]

theorem fsDel_fsSet (fs : FSState) (p : String) (d : FileDoc)
    (h : fsGet fs p = none) : fsDel (fsSet fs p d) p = fs := by
  induction fs with
  | nil => simp [fsSet, fsDel]
  | cons e rest ih =>
    obtain ⟨e1, e2⟩ := e
    by_cases hp : e1 = p
    · simp [fsGet, hp] at h
    · simp [fsGet, hp] at h
      simp [fsSet, fsDel, hp]
      rw [ih h]

theorem restore_fsSet (fs : FSState) (p : String) (d : FileDoc) :
    restoreOne ⟨p, fsGet fs p⟩ (fsSet fs p d) = fs := by
  cases hg : fsGet fs p with
  | some dOld => exact fsSet_fsSet_get fs p d dOld hg
  | none => exact fsDel_fsSet fs p d hg

theorem rollback_restore (recs : List TRecord) (fs : FSState) (p : String)
    (d : FileDoc) :
    rollback (⟨p, fsGet fs p⟩ :: recs) (fsSet fs p d) = rollback recs fs := by
  show rollback recs (restoreOne ⟨p, fsGet fs p⟩ (fsSet fs p d)) =
    rollback recs fs
  rw [restore_fsSet]

theorem runTransaction_rolledBack (agents : List TAgent) :
    ∀ (fs : FSState) (recs : List TRecord) (p : String) (fs' : FSState),
      runTransaction agents fs recs = TxResult.rolledBack p fs' →
      fs' = rollback recs fs := by
  induction agents with
  | nil =>
    intro fs recs p fs' h
    simp [runTransaction] at h
  | cons a rest ih =>
    intro fs recs p fs' h
    obtain ⟨ap, nd⟩ := a
    cases nd with
    | some d =>
      have h' : runTransaction rest (fsSet fs ap d)
          (⟨ap, fsGet fs ap⟩ :: recs) = TxResult.rolledBack p fs' := h
      have hr := ih (fsSet fs ap d) (⟨ap, fsGet fs ap⟩ :: recs) p fs' h'
      rw [hr, rollback_restore]
    | none =>
      have h' : TxResult.rolledBack ap (rollback recs fs) =
          TxResult.rolledBack p fs' := h
      injection h' with h1 h2
      exact h2.symm

/-- **C1.** In the spec's transaction coordinator, whenever a run over a
sequence of agents ends rolled back (some apply step failed), the final
file system equals the pre-transaction file system exactly — every file
already modified is restored byte-identically and the failing agent's
file is untouched; and `ConfigureCommand.configureAgents` always passes
the literal `true` as `rollbackOnFailure` to the coordinator. -/
theorem c1_atomic (agents : List TAgent) (fs : FSState) (p : String)
    (fs' : FSState) (h : runTx agents fs = TxResult.rolledBack p fs') :
    fs' = fs ∧ ∀ b, (configureAgentsCall b).rollbackOnFailure = true := by
  refine ⟨?_, fun b => rfl⟩
  have hr := runTransaction_rolledBack agents fs [] p fs' h
  simpa [rollback] using hr

/-- **C1.** Witness: two agents, the first applies a new document over an
existing file, the second fails; the run rolls back to exactly the
original file system. -/
theorem c1_witness :
    ([("x", "o".data)] : FSState) = [("x", "o".data)] ∧
    (configureAgentsCall (some true)).rollbackOnFailure = true := by
  have h := c1_atomic [⟨"x", some "n".data⟩, ⟨"y", none⟩] [("x", "o".data)]
    "y" [("x", "o".data)] rfl
  exact ⟨h.1, h.2 (some true)⟩

/-! ### C9: positional behaviour of the argv scan and the header passes -/

theorem flagsOKb_tail (x : List Char) (l : List (List Char))
    (h : flagsOKb (x :: l) = true) : flagsOKb l = true := by
  cases l with
  | nil => rfl
  | cons b rest =>
    have h' : ((!isFlag x || !isFlag b) && flagsOKb (b :: rest)) = true := h
    exact (by simpa using h' : (isFlag x = false ∨ isFlag b = false) ∧
      flagsOKb (b :: rest) = true).2

/-- Under `flagsOKb` (no flag is last, no flag follows a flag), the argv
scan is positional: a flag stays at its index and the next index holds
the bearer placeholder. -/
theorem redactArgv_flag_pos :
    ∀ (xs : List (List Char)) (i : Nat) (s : List Char),
      flagsOKb xs = true → xs[i]? = some s → isFlag s = true →
      (redactArgv xs)[i]? = some s ∧
      (redactArgv xs)[i + 1]? = some "<redacted:bearer>".data
  | [], i, s, _, hget, _ => by simp at hget
  | [a], i, s, hok, hget, hflag => by
    cases i with
    | zero =>
      simp at hget
      subst hget
      have hok' : (!isFlag a) = true := hok
      rw [hflag] at hok'
      simp at hok'
    | succ n => simp at hget
  | a :: b :: rest, i, s, hok, hget, hflag => by
    have hok1 : ((!isFlag a || !isFlag b) && flagsOKb (b :: rest)) = true := hok
    have hok2 : (isFlag a = false ∨ isFlag b = false) ∧
        flagsOKb (b :: rest) = true := by simpa using hok1
    by_cases hfa : isFlag a = true
    · have hnb : isFlag b = false := by
        rcases hok2.1 with h | h
        · rw [hfa] at h
          cases h
        · exact h
      have hred : redactArgv (a :: b :: rest) =
          a :: "<redacted:bearer>".data :: redactArgv rest := by
        show (if isFlag a then _ else _) = _
        rw [if_pos hfa]
      cases i with
      | zero =>
        simp at hget
        subst hget
        rw [hred]
        exact ⟨by simp, by simp⟩
      | succ n =>
        cases n with
        | zero =>
          simp at hget
          subst hget
          rw [hflag] at hnb
          cases hnb
        | succ m =>
          have hget' : rest[m]? = some s := by simpa using hget
          have hokr : flagsOKb rest = true := flagsOKb_tail b rest hok2.2
          have ih := redactArgv_flag_pos rest m s hokr hget' hflag
          rw [hred]
          exact ⟨by simpa using ih.1, by simpa using ih.2⟩
    · have hfa' : isFlag a = false := by simpa using hfa
      have hred : redactArgv (a :: b :: rest) =
          redactString a :: redactArgv (b :: rest) := by
        show (if isFlag a then _ else _) = _
        rw [if_neg (by simp [hfa'])]
      cases i with
      | zero =>
        simp at hget
        subst hget
        rw [hfa'] at hflag
        cases hflag
      | succ n =>
        have hget' : (b :: rest)[n]? = some s := by simpa using hget
        have ih := redactArgv_flag_pos (b :: rest) n s hok2.2 hget' hflag
        rw [hred]
        exact ⟨by simpa using ih.1, by simpa using ih.2⟩
termination_by xs _ _ _ _ _ => xs.length

/-- **C9.** Counterexample to the claim as stated: in
`[--oauth2Bearer, --oauth2Bearer, y]` the element at index 1 is the flag
(matched case-insensitively), yet the element following it is not
replaced with the bearer placeholder — the scan consumed it as the first
flag's companion, so `y` survives unredacted in the output. -/
theorem c9_counterexample :
    isFlag "--oauth2Bearer".data = true ∧
    (["--oauth2Bearer".data, "--oauth2Bearer".data, "y".data] :
        List (List Char))[1]? = some "--oauth2Bearer".data ∧
    (redactArgv ["--oauth2Bearer".data, "--oauth2Bearer".data,
        "y".data])[2]? = some "y".data ∧
    "y".data ≠ "<redacted:bearer>".data := by
  refine ⟨by decide, by decide, ?_, by decide⟩
  show some (redactString "y".data) = some "y".data
  decide

/-- **C9.** Amended property: when no flag is the last element and no
flag immediately follows another flag, the element after a
case-insensitive `--oauth2Bearer` flag is replaced by the bearer
placeholder with the flag kept in place; and for every sensitive header
key, a `Key: value` string with a non-empty value of plain characters
has exactly its value replaced by that key's placeholder, the header
name staying visible. -/
theorem c9_amended (xs : List (List Char)) (i : Nat) (s : List Char)
    (hok : flagsOKb xs = true) (hget : xs[i]? = some s)
    (hflag : isFlag s = true) (v : List Char)
    (hv : ∀ c ∈ v, plainChar c = true) (hne : v ≠ []) :
    (redactArgv xs)[i]? = some s ∧
    (redactArgv xs)[i + 1]? = some "<redacted:bearer>".data ∧
    (∀ k ∈ SENSITIVE_HEADER_KEYS,
      redactString (k.data ++ ": ".data ++ v) =
        k.data ++ ": ".data ++ placeholderFor k) := by
  have h1 := redactArgv_flag_pos xs i s hok hget hflag
  refine ⟨h1.1, h1.2, ?_⟩
  intro k hk
  simp only [SENSITIVE_HEADER_KEYS, List.mem_cons,
    List.not_mem_nil, or_false] at hk
  rcases hk with rfl | rfl | rfl | rfl | rfl
  · exact redactString_auth v hv hne
  · exact redactString_api v hv hne
  · exact redactString_xauth v hv hne
  · exact redactString_xaccess v hv hne
  · exact redactString_proxy v hv hne

/-- **C9.** Witness: the amended property at a concrete argv and a
concrete header string. -/
theorem c9_witness :
    (redactArgv ["--oauth2Bearer".data, "tok".data])[0]? =
      some "--oauth2Bearer".data ∧
    (redactArgv ["--oauth2Bearer".data, "tok".data])[1]? =
      some "<redacted:bearer>".data ∧
    redactString ("authorization".data ++ ": ".data ++ "abc".data) =
      "authorization".data ++ ": ".data ++ placeholderFor "authorization" := by
  have h := c9_amended ["--oauth2Bearer".data, "tok".data] 0
    "--oauth2Bearer".data (by decide) (by decide) (by decide)
    "abc".data (by decide) (by decide)
  exact ⟨h.1, h.2.1, h.2.2 "authorization" (by decide)⟩
